import Mathlib

/-!
Verification development for the synac glossary-extraction scripts.

The repository consists of three single-run Python scripts:

* `pdf_scraper.py`  — "PatternStrategy": runs the regular expression
  `([A-Z\s]+):\s+([^.]+)\.` over every page of a PDF and writes each match
  as a CSV row `[term, definition, "NIST.IR.7298r2.pdf"]`.
* `owasp_scrape.py` — "SectionStrategy": for every `div.section` of the
  fetched HTML tree, writes `[h1 text, p text]`, using
  `section.find("h1").get_text(strip=True)` (no None guard).
* `scraper.py`      — "TableStrategy": for every table, iterates
  `table.tbody`'s rows, cells and paragraphs; in every paragraph the first
  `strong` tag's stripped text is the term and the stripped plain-text
  next-siblings of that tag, joined by single spaces, form the definition.

This file gives a shallow embedding of the three extraction pipelines and
proves or refutes the specification's claims about them.
-/

/-! ## Character classes and Python string helpers -/

/-- Python `\s` on the character set the scripts actually meet: the six ASCII
whitespace characters (space, tab, newline, carriage return, vertical tab,
form feed). -/
def isSpacePy (c : Char) : Bool :=
  c = ' ' || c = '\t' || c = '\n' || c = '\r' || c = '\x0b' || c = '\x0c'

/-- Characters matched by `[A-Z\s]`: uppercase ASCII letters and whitespace. -/
def isTermChar (c : Char) : Bool :=
  ('A' ≤ c && c ≤ 'Z') || isSpacePy c

/-- Python `str.strip()` on a list of characters: remove leading and trailing
whitespace. -/
def pyStripL (cs : List Char) : List Char :=
  ((cs.dropWhile isSpacePy).reverse.dropWhile isSpacePy).reverse

/-- Python `str.strip()`. -/
def pyStrip (s : String) : String := ⟨pyStripL s.data⟩

/-- Python `sep.join(parts)` at the character-list level. -/
def joinSep (sep : List Char) : List (List Char) → List Char
  | [] => []
  | [x] => x
  | x :: y :: xs => x ++ sep ++ joinSep sep (y :: xs)

/-! ## PatternStrategy: the regex scanner of `pdf_scraper.py`

`pattern = re.compile(r"([A-Z\s]+):\s+([^.]+)\.")` and `pattern.findall(text)`.

Python's backtracking semantics for this concrete pattern, made explicit:

* `([A-Z\s]+)` is a maximal run of term characters; backtracking inside it
  never helps because a shorter run ends in a term character, never in the
  required `:`.
* `\s+` is a maximal whitespace run, except that when the character after
  the run is `.` the engine gives back exactly one whitespace character so
  that `([^.]+)` (which accepts whitespace) can match it; this needs the
  whitespace run to have length at least two.
* `([^.]+)` is then the maximal run of non-period characters and must be
  followed by a literal `.`.

`findall` scans left to right: after a failed attempt the start position
advances by one character; after a successful match it resumes at the match
end.  No match of this pattern is empty, so no empty-match corner case
arises. -/

/-- One match attempt of the pattern at the head of `cs`.  On success returns
the two capture groups and the remainder of the input after the match. -/
def tryMatch (cs : List Char) : Option ((List Char × List Char) × List Char) :=
  let g1 := cs.takeWhile isTermChar
  let r1 := cs.drop g1.length
  if g1 = [] then none
  else if r1.head? = some ':' then
    let t := r1.tail
    let ws := t.takeWhile isSpacePy
    let u := t.drop ws.length
    if ws = [] then none
    else if u.head? = some '.' then
      if 2 ≤ ws.length then some ((g1, [ws.getLastD ' ']), u.tail) else none
    else
      let g2 := u.takeWhile (fun c => !(c = '.'))
      let r2 := u.drop g2.length
      if g2 = [] then none
      else if r2.head? = some '.' then some ((g1, g2), r2.tail) else none
  else none

/-- Left-to-right non-overlapping scan of `pattern.findall`, with fuel.
Every step shortens the input by at least one character, so fuel equal to
the input length is always sufficient. -/
def findallAux : Nat → List Char → List (List Char × List Char)
  | 0, _ => []
  | _, [] => []
  | fuel + 1, cs@(_ :: cs') =>
    match tryMatch cs with
    | some (g, rest) => g :: findallAux fuel rest
    | none => findallAux fuel cs'

/-- `pattern.findall(s)` for `pattern = re.compile(r"([A-Z\s]+):\s+([^.]+)\.")`. -/
def pdfFindall (s : String) : List (String × String) :=
  (findallAux s.data.length s.data).map fun p => (⟨p.1⟩, ⟨p.2⟩)

/-- Rows written by the page loop of `pdf_scraper.py` for one page text:
one row `[term, definition, "NIST.IR.7298r2.pdf"]` per match. -/
def pdfPageRows (text : String) : List (List String) :=
  (pdfFindall text).map fun td => [td.1, td.2, "NIST.IR.7298r2.pdf"]

/-- The whole CSV file produced by `pdf_scraper.py` from the page texts:
a header row followed by the rows of every page in document order. -/
def pdfScript (pages : List String) : List (List String) :=
  ["Term", "Definition", "Source"] :: pages.flatMap pdfPageRows

/-! ## HTML trees and the BeautifulSoup operations the scripts use

A parsed HTML document is a tree of element nodes (tag, class list,
children) and plain-text nodes (`NavigableString`).  The scripts use:

* `find_all(tag[, class])` — all matching element descendants, preorder;
* `find(tag)` / attribute access such as `table.tbody` — the first matching
  element descendant in preorder, `None` when there is none;
* `tag.next_siblings` — the nodes following the tag among the children of
  the tag's own parent (for a tag located by `find`, that is the level at
  which it was found);
* `get_text(strip=True)` — every descendant text node stripped, the empty
  ones skipped, joined with the empty separator;
* `str(navigable_string)` — the text itself. -/

inductive Node where
  | text (s : String)
  | elem (tag : String) (classes : List String) (children : List Node)

/-- Element with the given tag name. -/
def isTag (t : String) : Node → Bool
  | .elem tg _ _ => tg = t
  | .text _ => false

/-- Element matched by `find_all("div", {"class": "section"})`. -/
def isSectionDiv : Node → Bool
  | .elem tg cls _ => tg = "div" && cls.contains "section"
  | .text _ => false

/-- Text content of a text node. -/
def textOf : Node → Option String
  | .text s => some s
  | .elem _ _ _ => none

mutual

/-- Descendant text nodes of a node, in document order. -/
def nodeTexts : Node → List String
  | .text s => [s]
  | .elem _ _ cs => listTexts cs

/-- Descendant text nodes of a list of nodes, in document order. -/
def listTexts : List Node → List String
  | [] => []
  | n :: ns => nodeTexts n ++ listTexts ns

end

/-- BeautifulSoup `get_text(strip=True)`: strip every descendant string,
skip the empty ones, concatenate. -/
def getTextStrip (n : Node) : String :=
  ⟨joinSep [] (((nodeTexts n).map fun s => pyStripL s.data).filter fun f => !(f = []))⟩

mutual

/-- First element descendant of any node in the list satisfying `p`,
preorder (each node before its own children, children before later
siblings). -/
def findInList (p : Node → Bool) : List Node → Option Node
  | [] => none
  | n :: ns =>
    if p n then some n
    else
      match findInNode p n with
      | some r => some r
      | none => findInList p ns

/-- First element descendant of `n` satisfying `p` (not `n` itself):
BeautifulSoup `find`. -/
def findInNode (p : Node → Bool) : Node → Option Node
  | .text _ => none
  | .elem _ _ cs => findInList p cs

end

mutual

/-- All matching descendants of the nodes in the list, preorder. -/
def findAllL (p : Node → Bool) : List Node → List Node
  | [] => []
  | n :: ns => (if p n then [n] else []) ++ findAllIn p n ++ findAllL p ns

/-- All matching descendants of `n` (not `n` itself): BeautifulSoup
`find_all`. -/
def findAllIn (p : Node → Bool) : Node → List Node
  | .text _ => []
  | .elem _ _ cs => findAllL p cs

end

mutual

/-- First descendant with the given tag, together with the nodes following
it among the children of its own parent (its `next_siblings`). -/
def findTagRestL (t : String) : List Node → Option (Node × List Node)
  | [] => none
  | n :: ns =>
    if isTag t n then some (n, ns)
    else
      match findTagRestIn t n with
      | some r => some r
      | none => findTagRestL t ns

/-- Like `findTagRestL`, searching the descendants of one node. -/
def findTagRestIn (t : String) : Node → Option (Node × List Node)
  | .text _ => none
  | .elem _ _ cs => findTagRestL t cs

end

/-! ## SectionStrategy: `owasp_scrape.py`

For every `div.section`, `term = section.find("h1").get_text(strip=True)`
and `definition = section.find("p").get_text(strip=True)`.  `find` returns
`None` when the element is absent, and `None.get_text` raises
`AttributeError`, which nothing catches: the run aborts there, keeping the
rows already written.  We model the written rows together with an abort
flag. -/

/-- Process the list of matched sections in order.  Returns the `(term,
definition)` pairs written before any failure and whether the run aborted
with an `AttributeError` (a section whose `h1` or `p` lookup returned
`None`). -/
def sectionGo : List Node → List (String × String) × Bool
  | [] => ([], false)
  | s :: rest =>
    match findInNode (isTag "h1") s, findInNode (isTag "p") s with
    | some h, some p =>
      let r := sectionGo rest
      ((getTextStrip h, getTextStrip p) :: r.1, r.2)
    | _, _ => ([], true)

/-- Rows of `owasp_terms.csv` (and the abort flag) produced from a parsed
tree: the section loop over `soup.find_all("div", {"class": "section"})`. -/
def sectionEntriesTree (tree : Node) : List (String × String) × Bool :=
  sectionGo (findAllIn isSectionDiv tree)

/-- The `(term, definition)` pair a well-formed section contributes. -/
def sectionEntryOf (s : Node) : String × String :=
  (getTextStrip ((findInNode (isTag "h1") s).getD (Node.text "")),
   getTextStrip ((findInNode (isTag "p") s).getD (Node.text "")))

/-! ## TableStrategy: `scraper.py` -/

/-- The fixed URL `scraper.py` fetches; the source label of every entry. -/
def sansUrl : String := "https://www.sans.org/security-resources/glossary-of-terms/"

/-- The definition built from the nodes after the `strong` tag: keep the
plain-text siblings (`isinstance(sibling, NavigableString)`), strip each,
drop the empty ones, join with single spaces — the characters of
`" ".join(part for part in definition_parts if part)`. -/
def defnChars (rest : List Node) : List Char :=
  joinSep [' '] (((rest.filterMap textOf).map fun s => pyStripL s.data).filter fun f => !(f = []))

/-- The paragraph loop body: the first `strong` descendant's stripped text
is the term; the stripped non-empty plain-text next-siblings of that tag,
joined with single spaces, form the definition; no `strong`, or an empty
definition, yields no entry. -/
def entryOfParagraph (url : String) (par : Node) : Option (String × String × String) :=
  match findTagRestIn "strong" par with
  | none => none
  | some (tag, rest) =>
    let term := getTextStrip tag
    let d := defnChars rest
    if d = [] then none else some (term, ⟨d⟩, url)

/-- Entries of one table row: every cell's paragraphs in document order. -/
def rowEntries (url : String) (row : Node) : List (String × String × String) :=
  (findAllIn (isTag "td") row).flatMap fun cell =>
    (findAllIn (isTag "p") cell).flatMap fun par => (entryOfParagraph url par).toList

/-- Process the list of tables in order.  `table.tbody` is the first
`tbody` descendant; when a table has none, `None.find_all` raises
`AttributeError` and the run aborts, keeping the rows already written. -/
def tableGo (url : String) : List Node → List (String × String × String) × Bool
  | [] => ([], false)
  | t :: rest =>
    match findInNode (isTag "tbody") t with
    | none => ([], true)
    | some tb =>
      let here := (findAllIn (isTag "tr") tb).flatMap (rowEntries url)
      let r := tableGo url rest
      (here ++ r.1, r.2)

/-- Entries (and the abort flag) produced from a parsed tree: the loop over
`soup.find_all("table")`. -/
def tableEntriesTree (url : String) (tree : Node) : List (String × String × String) × Bool :=
  tableGo url (findAllIn (isTag "table") tree)

/-! ## The fetch step and whole-script output

`requests.get(url)` returns a response carrying a status code and a body;
neither script inspects the status — the body is parsed unconditionally.
A transport failure raises before a response exists.  `owasp_scrape.py`
fetches before opening its CSV file; `scraper.py` opens the file and writes
the header row first and fetches afterwards. -/

structure HttpResponse where
  status : Nat
  body : Node

/-- Outcome of `requests.get`: a response (whatever its status), or a raised
transport error. -/
inductive Fetch where
  | ok (r : HttpResponse)
  | err

/-- Rows of `owasp_terms.csv` written by a run of `owasp_scrape.py`: the
fetch happens before the file is opened, so a transport error leaves
nothing written; otherwise the header row precedes the section rows. -/
def owaspScript (f : Fetch) : List (List String) :=
  match f with
  | .err => []
  | .ok r =>
    ["Term", "Definition"] :: (sectionEntriesTree r.body).1.map fun td => [td.1, td.2]

/-- Rows of `terms.csv` written by a run of `scraper.py`: the header row is
written before the fetch, so it is present even when the fetch raises. -/
def scraperScript (f : Fetch) : List (List String) :=
  ["Term", "Definition", "Source"] ::
    match f with
    | .err => []
    | .ok r => (tableEntriesTree sansUrl r.body).1.map fun e => [e.1, e.2.1, e.2.2]

/-! ## Concrete fixtures used by the claim theorems -/

/-- The page text of the spec's PatternStrategy example. -/
def c1Text : String :=
  "CONFIDENTIALITY: the property of being accessible only to authorized parties. INTEGRITY: the assurance of data accuracy."

/-- A section with a paragraph but no heading: `find("h1")` returns `None`. -/
def c2BadSection : Node :=
  Node.elem "div" ["section"]
    [Node.elem "p" [] [Node.text "A paragraph with no heading before it."]]

/-- A well-formed section with a heading and a paragraph. -/
def c2GoodSection : Node :=
  Node.elem "div" ["section"]
    [Node.elem "h1" [] [Node.text "XSS"],
     Node.elem "p" [] [Node.text "Cross-site scripting."]]

/-- A tree whose first section is faulty and whose second is well-formed. -/
def c2Tree : Node := Node.elem "body" [] [c2BadSection, c2GoodSection]

/-- The `strong` tag of the spec's TableStrategy example paragraph. -/
def c3StrongTag : Node := Node.elem "strong" [] [Node.text "Firewall"]

/-- The next-siblings of that tag. -/
def c3Rest : List Node := [Node.text " a system that monitors network traffic."]

/-- The spec's TableStrategy example paragraph. -/
def c3Par : Node := Node.elem "p" [] (c3StrongTag :: c3Rest)

/-- A paragraph without any emphasis tag. -/
def c3NoStrong : Node := Node.elem "p" [] [Node.text "no emphasis here."]

/-- A section whose heading element is empty: its stripped text is `""`. -/
def c4EmptyH1Tree : Node :=
  Node.elem "body" []
    [Node.elem "div" ["section"]
      [Node.elem "h1" [] [],
       Node.elem "p" [] [Node.text "An empty heading."]]]

/-- A table tree holding the example paragraph inside body/tr/td. -/
def c4TableTree : Node :=
  Node.elem "body" []
    [Node.elem "table" []
      [Node.elem "tbody" []
        [Node.elem "tr" [] [Node.elem "td" [] [c3Par]]]]]

/-- A tree with two well-formed sections. -/
def c5Tree : Node := Node.elem "body" [] [c2GoodSection,
  Node.elem "div" ["section"]
    [Node.elem "h1" [] [Node.text "CSRF"],
     Node.elem "p" [] [Node.text "Cross-site request forgery."]]]

/-- A tree with one well-formed section, used as a non-2xx response body. -/
def c6Tree : Node := Node.elem "body" [] [c2GoodSection]

/-- A table with a `tbody`. -/
def c9Table : Node := Node.elem "table" [] [Node.elem "tbody" [] []]

/-- A tree whose only table has a `tbody`. -/
def c9Tree : Node := Node.elem "body" [] [c9Table]

/-- A table without any `tbody` descendant. -/
def c9BadTable : Node := Node.elem "table" [] [Node.elem "tr" [] []]

/-- A tree whose only table lacks a `tbody`. -/
def c9BadTree : Node := Node.elem "body" [] [c9BadTable]

/-! ## Trimming lemmas

`pyStripL` output never starts or ends with whitespace, and a
concatenation of non-empty stripped fragments (with any separator) starts
and ends with the first and last fragments' non-whitespace edge
characters. -/

/-- A fragment as produced by the strip-and-filter steps of the scripts:
non-empty, with no leading and no trailing whitespace. -/
def GoodFrag (f : List Char) : Prop :=
  f ≠ [] ∧ f.head?.any isSpacePy = false ∧ f.getLast?.any isSpacePy = false

theorem dropWhile_head?_any (p : Char → Bool) (cs : List Char) :
    ((cs.dropWhile p).head?).any p = false := by
  induction cs with
  | nil => rfl
  | cons a l ih =>
    cases hpa : p a with
    | true => simpa [List.dropWhile_cons, hpa] using ih
    | false => simp [List.dropWhile_cons, hpa]

theorem getLast?_of_suffix {x y : List Char} (h : x <:+ y) (hx : x ≠ []) :
    x.getLast? = y.getLast? := by
  rw [List.getLast?_eq_getLast x hx, List.getLast?_eq_getLast y (h.ne_nil hx), h.getLast hx]

theorem dropWhile_getLast?_any (p q : Char → Bool) (cs : List Char)
    (h : cs.getLast?.any q = false) : ((cs.dropWhile p).getLast?).any q = false := by
  rcases hd : cs.dropWhile p with _ | ⟨a, l⟩
  · rfl
  · have hne : cs.dropWhile p ≠ [] := by rw [hd]; exact List.cons_ne_nil a l
    rw [← hd, getLast?_of_suffix (List.dropWhile_suffix p) hne]
    exact h

theorem pyStripL_head?_any (cs : List Char) :
    ((pyStripL cs).head?).any isSpacePy = false := by
  unfold pyStripL
  rw [List.head?_reverse]
  apply dropWhile_getLast?_any
  rw [List.getLast?_reverse]
  exact dropWhile_head?_any isSpacePy cs

theorem pyStripL_getLast?_any (cs : List Char) :
    ((pyStripL cs).getLast?).any isSpacePy = false := by
  unfold pyStripL
  rw [List.getLast?_reverse]
  exact dropWhile_head?_any isSpacePy ((cs.dropWhile isSpacePy).reverse)

theorem dropWhile_eq_self_of_head (p : Char → Bool) (cs : List Char)
    (h : (cs.head?).any p = false) : cs.dropWhile p = cs := by
  cases cs with
  | nil => rfl
  | cons a l =>
    simp only [List.head?_cons, Option.any_some] at h
    simp [List.dropWhile_cons, h]

theorem pyStripL_eq_self (cs : List Char)
    (h1 : (cs.head?).any isSpacePy = false) (h2 : (cs.getLast?).any isSpacePy = false) :
    pyStripL cs = cs := by
  unfold pyStripL
  rw [dropWhile_eq_self_of_head _ _ h1,
    dropWhile_eq_self_of_head _ _ (by rw [List.head?_reverse]; exact h2),
    List.reverse_reverse]

theorem pyStripL_good (cs : List Char) (h : pyStripL cs ≠ []) : GoodFrag (pyStripL cs) :=
  ⟨h, pyStripL_head?_any cs, pyStripL_getLast?_any cs⟩

theorem joinSep_ne_nil (sep : List Char) (f : List Char) (fs : List (List Char))
    (hf : f ≠ []) : joinSep sep (f :: fs) ≠ [] := by
  cases fs with
  | nil => simpa [joinSep] using hf
  | cons g gs => simp [joinSep, hf]

theorem joinSep_head?_any (sep : List Char) (fs : List (List Char))
    (h : ∀ f ∈ fs, GoodFrag f) : ((joinSep sep fs).head?).any isSpacePy = false := by
  cases fs with
  | nil => rfl
  | cons f gs =>
    have hf := h f (List.mem_cons_self f gs)
    cases gs with
    | nil => exact hf.2.1
    | cons g gs2 =>
      rcases f with _ | ⟨a, f2⟩
      · exact absurd rfl hf.1
      · simpa [joinSep] using hf.2.1

theorem joinSep_getLast?_any (sep : List Char) (fs : List (List Char))
    (h : ∀ f ∈ fs, GoodFrag f) : ((joinSep sep fs).getLast?).any isSpacePy = false := by
  induction fs with
  | nil => rfl
  | cons f gs ih =>
    have hf := h f (List.mem_cons_self f gs)
    cases gs with
    | nil => exact hf.2.2
    | cons g gs2 =>
      have hg : joinSep sep (g :: gs2) ≠ [] :=
        joinSep_ne_nil sep g gs2 (h g (by simp)).1
      have ihg := ih fun x hx => h x (List.mem_cons_of_mem f hx)
      rw [joinSep, List.append_assoc, List.getLast?_append]
      rcases ht : (joinSep sep (g :: gs2)).getLast? with _ | c
      · exact absurd (List.getLast?_eq_none_iff.mp ht) hg
      · rw [ht] at ihg
        rw [List.getLast?_append, ht]
        simpa using ihg

theorem joinSep_stripped (sep : List Char) (fs : List (List Char))
    (h : ∀ f ∈ fs, GoodFrag f) : pyStripL (joinSep sep fs) = joinSep sep fs :=
  pyStripL_eq_self _ (joinSep_head?_any sep fs h) (joinSep_getLast?_any sep fs h)

/-- Every fragment retained by the strip-and-filter step is non-empty and
stripped. -/
theorem frag_good {ss : List String} {f : List Char}
    (hf : f ∈ (ss.map fun s => pyStripL s.data).filter fun g => !(g = [])) :
    GoodFrag f := by
  have hm := List.mem_filter.mp hf
  rcases List.mem_map.mp hm.1 with ⟨s, _, rfl⟩
  exact pyStripL_good _ (by simpa using hm.2)

/-- `get_text(strip=True)` output has no leading or trailing whitespace. -/
theorem getTextStrip_stripped (n : Node) : pyStrip (getTextStrip n) = getTextStrip n := by
  unfold getTextStrip pyStrip
  exact congrArg String.mk (joinSep_stripped [] _ fun f hf => frag_good hf)

/-! ## Shape of the entries each strategy emits -/

/-- Every pair written by the section loop is the stripped text of some
`h1` element and the stripped text of some `p` element. -/
theorem sectionGo_mem {ss : List Node} {e : String × String} (he : e ∈ (sectionGo ss).1) :
    ∃ h p, e = (getTextStrip h, getTextStrip p) := by
  induction ss with
  | nil => simp [sectionGo] at he
  | cons s rest ih =>
    rcases hh : findInNode (isTag "h1") s with _ | h
    · simp [sectionGo, hh] at he
    · rcases hp : findInNode (isTag "p") s with _ | p
      · simp [sectionGo, hh, hp] at he
      · simp only [sectionGo, hh, hp, List.mem_cons] at he
        rcases he with he | he
        · exact ⟨h, p, he⟩
        · exact ih he

/-- Every entry the paragraph loop emits has a stripped term, a non-empty
stripped definition, and the fetched URL as its source. -/
theorem entryOfParagraph_sound {url : String} {par : Node} {e : String × String × String}
    (he : entryOfParagraph url par = some e) :
    pyStrip e.1 = e.1 ∧ e.2.1 ≠ "" ∧ pyStrip e.2.1 = e.2.1 ∧ e.2.2 = url := by
  unfold entryOfParagraph at he
  rcases hf : findTagRestIn "strong" par with _ | ⟨tag, rest⟩
  · rw [hf] at he; exact absurd he (by simp)
  · rw [hf] at he
    simp only at he
    split at he
    · exact absurd he (by simp)
    · rename_i hd
      have hdef : pyStripL (defnChars rest) = defnChars rest := by
        unfold defnChars
        exact joinSep_stripped _ _ fun f hf2 => frag_good hf2
      rcases Option.some_inj.mp he with rfl
      refine ⟨getTextStrip_stripped tag, ?_, ?_, rfl⟩
      · intro hcon
        exact hd (congrArg String.data hcon)
      · exact congrArg String.mk hdef

/-- Every entry written by the table loop comes from `entryOfParagraph` on
some paragraph. -/
theorem tableGo_mem {url : String} {ts : List Node} {e : String × String × String}
    (he : e ∈ (tableGo url ts).1) : ∃ par, entryOfParagraph url par = some e := by
  induction ts with
  | nil => simp [tableGo] at he
  | cons t rest ih =>
    rcases htb : findInNode (isTag "tbody") t with _ | tb
    · simp [tableGo, htb] at he
    · simp only [tableGo, htb, List.mem_append] at he
      rcases he with he | he
      · rcases List.mem_flatMap.mp he with ⟨row, _, hrow⟩
        simp only [rowEntries] at hrow
        rcases List.mem_flatMap.mp hrow with ⟨cell, _, hcell⟩
        rcases List.mem_flatMap.mp hcell with ⟨par, _, hpar⟩
        refine ⟨par, ?_⟩
        simpa using hpar
      · exact ih he

/-- When every section has both lookups, the section loop emits one pair
per section, in order, and does not abort. -/
theorem sectionGo_all (ss : List Node)
    (h : ∀ s ∈ ss, (findInNode (isTag "h1") s).isSome ∧ (findInNode (isTag "p") s).isSome) :
    sectionGo ss = (ss.map sectionEntryOf, false) := by
  induction ss with
  | nil => rfl
  | cons s rest ih =>
    have hs := h s (List.mem_cons_self s rest)
    rcases hh : findInNode (isTag "h1") s with _ | hv
    · rw [hh] at hs; simp at hs
    · rcases hp : findInNode (isTag "p") s with _ | pv
      · rw [hp] at hs; simp at hs
      · have ihr := ih fun x hx => h x (List.mem_cons_of_mem s hx)
        simp [sectionGo, hh, hp, ihr, sectionEntryOf]

/-- When the sections before a faulty one are all well-formed, the section
loop keeps their rows and aborts at the faulty section: nothing from it or
any later section is emitted. -/
theorem sectionGo_abort (pre : List Node) (s : Node) (rest : List Node)
    (hpre : ∀ x ∈ pre, (findInNode (isTag "h1") x).isSome ∧ (findInNode (isTag "p") x).isSome)
    (hs : findInNode (isTag "h1") s = none ∨ findInNode (isTag "p") s = none) :
    sectionGo (pre ++ s :: rest) = (pre.map sectionEntryOf, true) := by
  induction pre with
  | nil =>
    rcases hs with hs | hs
    · simp [sectionGo, hs]
    · rcases hh : findInNode (isTag "h1") s with _ | hv
      · simp [sectionGo, hh]
      · simp [sectionGo, hh, hs]
  | cons a pre2 ih =>
    have ha := hpre a (List.mem_cons_self a pre2)
    rcases Option.isSome_iff_exists.mp ha.1 with ⟨hv, hh⟩
    rcases Option.isSome_iff_exists.mp ha.2 with ⟨pv, hp⟩
    have ihr := ih fun x hx => hpre x (List.mem_cons_of_mem a hx)
    simp [sectionGo, hh, hp, ihr, sectionEntryOf]

/-- The abort flag of the table loop: set exactly when some table has no
`tbody` descendant. -/
theorem tableGo_flag (url : String) (ts : List Node) :
    ((∃ t ∈ ts, findInNode (isTag "tbody") t = none) → (tableGo url ts).2 = true) ∧
    ((∀ t ∈ ts, (findInNode (isTag "tbody") t).isSome) → (tableGo url ts).2 = false) := by
  induction ts with
  | nil =>
    refine ⟨?_, fun _ => rfl⟩
    rintro ⟨t, ht, _⟩
    exact absurd ht (List.not_mem_nil t)
  | cons t rest ih =>
    constructor
    · rintro ⟨x, hx, hnone⟩
      rcases List.mem_cons.mp hx with rfl | hx2
      · simp [tableGo, hnone]
      · rcases htb2 : findInNode (isTag "tbody") t with _ | tb2
        · simp [tableGo, htb2]
        · simp only [tableGo, htb2]
          exact ih.1 ⟨x, hx2, hnone⟩
    · intro hall
      rcases Option.isSome_iff_exists.mp (hall t (List.mem_cons_self t rest)) with ⟨tb, htb⟩
      simp only [tableGo, htb]
      exact ih.2 fun x hx => hall x (List.mem_cons_of_mem t hx)

/-! ## Shape of the matches the regex scanner emits -/

theorem isSpacePy_ne_dot {c : Char} (h : isSpacePy c = true) : c ≠ '.' := by
  intro hc
  subst hc
  revert h
  decide

/-- Any successful match attempt yields a non-empty first group of term
characters and a non-empty second group free of periods. -/
theorem tryMatch_sound {cs g1 g2 rest : List Char}
    (h : tryMatch cs = some ((g1, g2), rest)) :
    g1 ≠ [] ∧ (∀ c ∈ g1, isTermChar c = true) ∧ g2 ≠ [] ∧ ∀ c ∈ g2, c ≠ '.' := by
  simp only [tryMatch] at h
  split_ifs at h with h1 h2 h3 h4 h5 h6 h7
  · simp only [Option.some.injEq, Prod.mk.injEq] at h
    obtain ⟨⟨hg1, hg2⟩, -⟩ := h
    subst hg1
    subst hg2
    refine ⟨h1, fun c hc => List.mem_takeWhile_imp hc, List.cons_ne_nil _ _, ?_⟩
    intro c hc
    rcases List.mem_singleton.mp hc with rfl
    have hmem := List.getLastD_mem_cons
      (List.takeWhile isSpacePy (List.drop (List.takeWhile isTermChar cs).length cs).tail) ' '
    rcases List.mem_cons.mp hmem with he | he
    · rw [he]; decide
    · exact isSpacePy_ne_dot (List.mem_takeWhile_imp he)
  · simp only [Option.some.injEq, Prod.mk.injEq] at h
    obtain ⟨⟨hg1, hg2⟩, -⟩ := h
    subst hg1
    subst hg2
    refine ⟨h1, fun c hc => List.mem_takeWhile_imp hc, h6, ?_⟩
    intro c hc
    simpa using List.mem_takeWhile_imp hc

/-- Every group pair produced by the scan has the shape guaranteed by the
pattern, whatever the fuel. -/
theorem findallAux_sound (fuel : Nat) (cs : List Char) {g : List Char × List Char}
    (hg : g ∈ findallAux fuel cs) :
    g.1 ≠ [] ∧ (∀ c ∈ g.1, isTermChar c = true) ∧ g.2 ≠ [] ∧ ∀ c ∈ g.2, c ≠ '.' := by
  induction fuel generalizing cs with
  | zero => simp [findallAux] at hg
  | succ fuel ih =>
    cases cs with
    | nil => simp [findallAux] at hg
    | cons a cs2 =>
      rcases hm : tryMatch (a :: cs2) with _ | ⟨⟨g1, g2⟩, rest⟩
      · rw [findallAux, hm] at hg
        exact ih cs2 hg
      · rw [findallAux, hm] at hg
        rcases List.mem_cons.mp hg with rfl | hg2
        · exact tryMatch_sound hm
        · exact ih rest hg2

/-- Every pair `pattern.findall` returns consists of a non-empty term of
uppercase letters and whitespace and a non-empty period-free definition. -/
theorem pdfFindall_sound {s : String} {td : String × String} (h : td ∈ pdfFindall s) :
    td.1 ≠ "" ∧ (∀ c ∈ td.1.data, isTermChar c = true) ∧
      td.2 ≠ "" ∧ ∀ c ∈ td.2.data, c ≠ '.' := by
  unfold pdfFindall at h
  rcases List.mem_map.mp h with ⟨g, hg, rfl⟩
  have hs := findallAux_sound _ _ hg
  refine ⟨fun hc => hs.1 (congrArg String.data hc), hs.2.1, fun hc => hs.2.2.1 (congrArg String.data hc), hs.2.2.2⟩

/-! ## The claims -/

/-- Claim C1, as stated, is false: on the example page text the scan
resumes right after the first match's terminating period, so the second
term captured by `[A-Z\s]+` is `" INTEGRITY"` with a leading space, not
`"INTEGRITY"`; the emitted rows are not the two entries the claim names. -/
theorem c1_counterexample :
    pdfPageRows c1Text ≠
      [["CONFIDENTIALITY", "the property of being accessible only to authorized parties",
        "NIST.IR.7298r2.pdf"],
       ["INTEGRITY", "the assurance of data accuracy", "NIST.IR.7298r2.pdf"]] := by
  decide

/-- Claim C1 amended: PatternStrategy emits one entry per non-overlapping
match in left-to-right order, and on the example page text the two emitted
entries are `("CONFIDENTIALITY", …)` and `(" INTEGRITY", …)` — the second
term keeps the leading space absorbed by the uppercase-and-whitespace run —
each with source `"NIST.IR.7298r2.pdf"`, the input file name. -/
theorem c1_amended :
    pdfPageRows c1Text =
      [["CONFIDENTIALITY", "the property of being accessible only to authorized parties",
        "NIST.IR.7298r2.pdf"],
       [" INTEGRITY", "the assurance of data accuracy", "NIST.IR.7298r2.pdf"]] := by
  decide

/-- Claim C2, as stated, is false: on a tree whose first section lacks a
heading and whose second section is well-formed, SectionStrategy does not
skip the faulty section and continue — it aborts (the `None.get_text`
`AttributeError`), emitting nothing at all, instead of the second
section's entry. -/
theorem c2_counterexample :
    sectionEntriesTree c2Tree ≠ ([("XSS", "Cross-site scripting.")], false) ∧
      sectionEntriesTree c2Tree = ([], true) := by
  constructor
  · decide
  · decide

/-- Claim C2 amended: when a section is missing its heading element or its
paragraph element, SectionStrategy aborts the whole run at that section —
the rows of the well-formed sections before it are kept, and neither the
faulty section nor any later section contributes an entry. -/
theorem c2_amended (pre : List Node) (s : Node) (rest : List Node)
    (hpre : ∀ x ∈ pre, (findInNode (isTag "h1") x).isSome ∧ (findInNode (isTag "p") x).isSome)
    (hs : findInNode (isTag "h1") s = none ∨ findInNode (isTag "p") s = none) :
    sectionGo (pre ++ s :: rest) = (pre.map sectionEntryOf, true) :=
  sectionGo_abort pre s rest hpre hs

theorem c2_amended_witness :
    sectionGo ([c2GoodSection] ++ c2BadSection :: []) =
      ([c2GoodSection].map sectionEntryOf, true) :=
  c2_amended [c2GoodSection] c2BadSection [] (by decide) (Or.inl rfl)

/-- Claim C3: for every paragraph in a table cell, a paragraph with no
emphasis (`strong`) element yields no entry; otherwise the entry's term is
the stripped text of the first emphasis element and its definition joins
the stripped plain-text siblings following that element (element siblings
ignored, not recursed into) with single spaces, except that an empty
definition yields no entry. -/
theorem c3_paragraph (url : String) (par : Node) :
    (findTagRestIn "strong" par = none → entryOfParagraph url par = none) ∧
    ∀ tag rest, findTagRestIn "strong" par = some (tag, rest) →
      (defnChars rest = [] → entryOfParagraph url par = none) ∧
      (defnChars rest ≠ [] →
        entryOfParagraph url par = some (getTextStrip tag, ⟨defnChars rest⟩, url)) := by
  constructor
  · intro h0
    unfold entryOfParagraph
    rw [h0]
  · intro tag rest hfound
    constructor
    · intro hd
      unfold entryOfParagraph
      rw [hfound]
      simp [hd]
    · intro hd
      unfold entryOfParagraph
      rw [hfound]
      simp [hd]

theorem c3_witness :
    entryOfParagraph sansUrl c3Par =
        some ("Firewall", "a system that monitors network traffic.", sansUrl) ∧
      entryOfParagraph sansUrl c3NoStrong = none := by
  refine ⟨?_, (c3_paragraph sansUrl c3NoStrong).1 rfl⟩
  rw [(((c3_paragraph sansUrl c3Par).2 c3StrongTag c3Rest) rfl).2 (by decide)]
  decide

/-- Claim C4, as stated, is false: PatternStrategy emits the term
`" INTEGRITY"`, which is not whitespace-trimmed, and SectionStrategy emits
an entry with an empty term when a section's heading element has no text. -/
theorem c4_counterexample :
    ((" INTEGRITY", "the assurance of data accuracy") ∈ pdfFindall c1Text ∧
        pyStrip " INTEGRITY" ≠ " INTEGRITY") ∧
      ("", "An empty heading.") ∈ (sectionEntriesTree c4EmptyH1Tree).1 := by
  refine ⟨⟨by decide, by decide⟩, by decide⟩

/-- Claim C4 amended: TableStrategy entries have a whitespace-trimmed term
and a non-empty whitespace-trimmed definition; SectionStrategy entries have
whitespace-trimmed (possibly empty) terms and definitions; PatternStrategy
entries have non-empty (but not necessarily trimmed) terms and
definitions. -/
theorem c4_amended :
    (∀ url tree e, e ∈ (tableEntriesTree url tree).1 →
        pyStrip e.1 = e.1 ∧ e.2.1 ≠ "" ∧ pyStrip e.2.1 = e.2.1) ∧
    (∀ tree e, e ∈ (sectionEntriesTree tree).1 →
        pyStrip e.1 = e.1 ∧ pyStrip e.2 = e.2) ∧
    ∀ (s : String) td, td ∈ pdfFindall s → td.1 ≠ "" ∧ td.2 ≠ "" := by
  refine ⟨?_, ?_, ?_⟩
  · intro url tree e he
    rcases tableGo_mem he with ⟨par, hpar⟩
    have h := entryOfParagraph_sound hpar
    exact ⟨h.1, h.2.1, h.2.2.1⟩
  · intro tree e he
    rcases sectionGo_mem he with ⟨h, p, rfl⟩
    exact ⟨getTextStrip_stripped h, getTextStrip_stripped p⟩
  · intro s td h
    have hs := pdfFindall_sound h
    exact ⟨hs.1, hs.2.2.1⟩

theorem c4_witness :
    (pyStrip "Firewall" = "Firewall" ∧
        "a system that monitors network traffic." ≠ "" ∧
        pyStrip "a system that monitors network traffic." =
          "a system that monitors network traffic.") ∧
      " INTEGRITY" ≠ "" ∧ "the assurance of data accuracy" ≠ "" :=
  ⟨c4_amended.1 sansUrl c4TableTree
      ("Firewall", "a system that monitors network traffic.", sansUrl) (by decide),
   c4_amended.2.2 c1Text (" INTEGRITY", "the assurance of data accuracy") (by decide)⟩

/-- Claim C5: on input whose sections each contain at least one heading
and at least one paragraph element, SectionStrategy emits exactly one
entry per section, in document order, without aborting. -/
theorem c5_section_count (tree : Node)
    (h : ∀ s ∈ findAllIn isSectionDiv tree,
      (findInNode (isTag "h1") s).isSome ∧ (findInNode (isTag "p") s).isSome) :
    sectionEntriesTree tree = ((findAllIn isSectionDiv tree).map sectionEntryOf, false) ∧
      (sectionEntriesTree tree).1.length = (findAllIn isSectionDiv tree).length := by
  have hall := sectionGo_all (findAllIn isSectionDiv tree) h
  refine ⟨hall, ?_⟩
  have h1 : (sectionEntriesTree tree).1 = (findAllIn isSectionDiv tree).map sectionEntryOf :=
    congrArg Prod.fst hall
  rw [h1, List.length_map]

theorem c5_witness :
    sectionEntriesTree c5Tree = ((findAllIn isSectionDiv c5Tree).map sectionEntryOf, false) ∧
      (sectionEntriesTree c5Tree).1.length = (findAllIn isSectionDiv c5Tree).length :=
  c5_section_count c5Tree (by decide)

/-- Claim C6, as stated, is false: neither script inspects the HTTP status
code, so extraction proceeds over the body of a non-success response — on
a status-404 response whose body holds one well-formed section, the
section script still writes that section's row. -/
theorem c6_counterexample :
    owaspScript (Fetch.ok ⟨404, c6Tree⟩) =
      [["Term", "Definition"], ["XSS", "Cross-site scripting."]] := by
  decide

/-- Claim C6 amended: the scripts never inspect the HTTP status code;
extraction runs over the response body identically whatever the status,
2xx or not. -/
theorem c6_amended (s1 s2 : Nat) (b : Node) :
    owaspScript (Fetch.ok ⟨s1, b⟩) = owaspScript (Fetch.ok ⟨s2, b⟩) ∧
      scraperScript (Fetch.ok ⟨s1, b⟩) = scraperScript (Fetch.ok ⟨s2, b⟩) :=
  ⟨rfl, rfl⟩

/-- Claim C7, as stated, is false: `scraper.py` opens its CSV file and
writes the header row before fetching, so a transport failure still leaves
a header row written. -/
theorem c7_counterexample :
    scraperScript Fetch.err = [["Term", "Definition", "Source"]] ∧
      scraperScript Fetch.err ≠ [] := by
  exact ⟨rfl, by decide⟩

/-- Claim C7 amended: on a transport failure the section script terminates
before anything is written, while the table script has already written the
header row and nothing else — a header-only file; no data row is written by
either script. -/
theorem c7_amended :
    owaspScript Fetch.err = [] ∧
      scraperScript Fetch.err = [["Term", "Definition", "Source"]] :=
  ⟨rfl, rfl⟩

/-- Claim C8: each extraction is deterministic — over equal inputs the
three scripts produce identical ordered output. -/
theorem c8_deterministic (pages pages2 : List String) (f g : Fetch)
    (hp : pages = pages2) (hf : f = g) :
    pdfScript pages = pdfScript pages2 ∧ owaspScript f = owaspScript g ∧
      scraperScript f = scraperScript g := by
  subst hp
  subst hf
  exact ⟨rfl, rfl, rfl⟩

theorem c8_witness :
    pdfScript [c1Text] = pdfScript [c1Text] ∧
      owaspScript Fetch.err = owaspScript Fetch.err ∧
      scraperScript Fetch.err = scraperScript Fetch.err :=
  c8_deterministic [c1Text] [c1Text] Fetch.err Fetch.err rfl rfl

/-- Claim C9: TableStrategy aborts whenever some table has no `tbody`
(the `None.find_all` on `table.tbody`), and never reaches that failure
when every table has one. -/
theorem c9_tbody_guard (url : String) (tree : Node) :
    ((∃ t ∈ findAllIn (isTag "table") tree, findInNode (isTag "tbody") t = none) →
        (tableEntriesTree url tree).2 = true) ∧
    ((∀ t ∈ findAllIn (isTag "table") tree, (findInNode (isTag "tbody") t).isSome) →
        (tableEntriesTree url tree).2 = false) :=
  tableGo_flag url (findAllIn (isTag "table") tree)

theorem c9_witness :
    (tableEntriesTree sansUrl c9Tree).2 = false ∧
      (tableEntriesTree sansUrl c9BadTree).2 = true :=
  ⟨(c9_tbody_guard sansUrl c9Tree).2 (by decide),
   (c9_tbody_guard sansUrl c9BadTree).1 ⟨c9BadTable, List.mem_singleton.mpr rfl, rfl⟩⟩

/-- Claim C10: every pair PatternStrategy emits has a non-empty term made
only of uppercase ASCII letters and whitespace, and a non-empty definition
containing no period. -/
theorem c10_pattern_invariant (s : String) (td : String × String) (h : td ∈ pdfFindall s) :
    td.1 ≠ "" ∧ (∀ c ∈ td.1.data, isTermChar c = true) ∧
      td.2 ≠ "" ∧ ∀ c ∈ td.2.data, c ≠ '.' :=
  pdfFindall_sound h

theorem c10_witness :
    (" INTEGRITY", "the assurance of data accuracy") ∈ pdfFindall c1Text ∧
      (" INTEGRITY" ≠ "" ∧ (∀ c ∈ " INTEGRITY".data, isTermChar c = true) ∧
        "the assurance of data accuracy" ≠ "" ∧
        ∀ c ∈ "the assurance of data accuracy".data, c ≠ '.') :=
  ⟨by decide,
   c10_pattern_invariant c1Text (" INTEGRITY", "the assurance of data accuracy") (by decide)⟩
